import Mathlib

/-!
Shallow embedding of the slack-ingestion repository (src/main.py and
src/gen_call_functions_sh.py) and proofs about its claimed behaviour.

Modelling conventions:
- Python dicts with string keys and string values (Slack message records)
  become association lists (`MsgRec`) with dict-update and dict-lookup
  operations.
- Unix timestamps (Python floats) become rationals.
- A remote endpoint is modelled by the finite list of responses its
  successive invocations return (a page, or a raised SlackApiError for the
  history endpoint).  The pagination loops of the source are recursion on
  that list; the loop is examined only within the listed responses.
- Each loop embedding additionally records the cursor argument passed on
  every call, in call order, so that call counts and cursor threading are
  observable, and the list of SlackApiError values handed to logging.info.
-/

namespace SlackIngest

/-- A Slack message record: a Python dict with string keys and string
values, as an association list. -/
abbrev MsgRec := List (String × String)

/-- Model of Python dict.update with a single key: every entry carrying the
key has its value replaced in place; if the key is absent the pair is
appended at the end. -/
def setField (m : MsgRec) (k v : String) : MsgRec :=
  if m.any (fun p => p.1 == k) then
    m.map (fun p => if p.1 == k then (k, v) else p)
  else
    m ++ [(k, v)]

/-- Model of Python dict lookup: the value of the first entry with the
given key, if any. -/
def getField (m : MsgRec) (k : String) : Option String :=
  (m.find? (fun p => p.1 == k)).map (fun p => p.2)

/-- One response page of the conversations.history endpoint, as read by
download_conversations_history: the messages field, the has_more field
(absent modelled as none, since the code tests it with the Python
expression has_more is False), and the response_metadata.next_cursor
field. -/
structure HistoryPage where
  messages : List MsgRec
  has_more : Option Bool
  next_cursor : String
  deriving Repr, DecidableEq

/-- A slack_sdk errors.SlackApiError raised by a history page fetch. -/
structure ApiError where
  msg : String
  deriving Repr, DecidableEq

/-- Result of running the download_conversations_history loop: the
accumulated conversations_by_channel list, the cursor argument passed on
each client.conversations_history call in call order, and the errors
passed to logging.info. -/
structure HistoryResult where
  msgs : List MsgRec
  cursors : List (Option String)
  logged : List ApiError
  deriving Repr, DecidableEq

/-- The while loop of download_conversations_history (src/main.py lines
76-99).  State: the cursor to pass on the next call (None on the first
call) and the remaining endpoint behaviour.  Each successful page has its
messages tagged with the channel id via dict.update, then the next cursor
is the empty string when has_more is the Python value False (terminating
the loop), and otherwise response_metadata.next_cursor, terminating when
that is empty.  A SlackApiError is logged and breaks the loop. -/
def historyGo (channel : String) : Option String → List (Except ApiError HistoryPage) → HistoryResult
  | _, [] => ⟨[], [], []⟩
  | cursor, Except.error e :: _ => ⟨[], [cursor], [e]⟩
  | cursor, Except.ok page :: rest =>
    let tagged := page.messages.map (fun m => setField m "channel" channel)
    let nc := if page.has_more = some false then "" else page.next_cursor
    if nc = "" then ⟨tagged, [cursor], []⟩
    else
      let r := historyGo channel (some nc) rest
      ⟨tagged ++ r.msgs, cursor :: r.cursors, r.logged⟩

/-- download_conversations_history (src/main.py lines 68-100), over a
modelled endpoint behaviour: starts the pagination loop with cursor None
and returns the accumulated messages. -/
def download_conversations_history (channel : String)
    (behavior : List (Except ApiError HistoryPage)) : HistoryResult :=
  historyGo channel none behavior

/-- One response page of a plain listing endpoint (conversations.list or
users.list): the items field (channels or members) and the
response_metadata.next_cursor field. -/
structure ListPage (α : Type) where
  items : List α
  next_cursor : String
  deriving Repr, DecidableEq

/-- Result of running a listing pagination loop: accumulated items and
the cursor argument passed on each call, in call order. -/
structure ListResult (α : Type) where
  items : List α
  cursors : List (Option String)
  deriving Repr, DecidableEq

/-- The while loop of download_conversations_list (src/main.py lines
30-43): extend the accumulator with the channels of each page; stop when
response_metadata.next_cursor is the empty string, else pass it on the
next call. -/
def conversationsListGo {α : Type} : Option String → List (ListPage α) → ListResult α
  | _, [] => ⟨[], []⟩
  | cursor, page :: rest =>
    if page.next_cursor = "" then ⟨page.items, [cursor]⟩
    else
      let r := conversationsListGo (some page.next_cursor) rest
      ⟨page.items ++ r.items, cursor :: r.cursors⟩

/-- download_conversations_list (src/main.py lines 25-44): pagination from
a None cursor. -/
def download_conversations_list {α : Type} (behavior : List (ListPage α)) : ListResult α :=
  conversationsListGo none behavior

/-- The while loop of download_users_list (src/main.py lines 52-64),
which duplicates the conversations.list loop over the members field. -/
def usersListGo {α : Type} : Option String → List (ListPage α) → ListResult α
  | _, [] => ⟨[], []⟩
  | cursor, page :: rest =>
    if page.next_cursor = "" then ⟨page.items, [cursor]⟩
    else
      let r := usersListGo (some page.next_cursor) rest
      ⟨page.items ++ r.items, cursor :: r.cursors⟩

/-- download_users_list (src/main.py lines 47-65): pagination from a None
cursor. -/
def download_users_list {α : Type} (behavior : List (ListPage α)) : ListResult α :=
  usersListGo none behavior

/-- A channel record as consumed by target_channel_id_name_list: the id,
name and is_archived fields of a conversations.list channel dict. -/
structure Channel where
  id : String
  name : String
  is_archived : Bool
  deriving Repr, DecidableEq

/-- target_channel_id_name_list (src/main.py lines 103-117): iterate the
channel list in order; when including_archived is False an archived
channel is skipped; otherwise the id and the name are appended to the two
result lists. -/
def target_channel_id_name_list : List Channel → Bool → List String × List String
  | [], _ => ([], [])
  | ch :: rest, including_archived =>
    let r := target_channel_id_name_list rest including_archived
    if !including_archived && ch.is_archived then r
    else (ch.id :: r.1, ch.name :: r.2)

/-- The retained channels: spec-side characterisation used in theorem
statements (a channel is kept when the flag is true or it is not
archived). -/
def keptChannels (l : List Channel) (including_archived : Bool) : List Channel :=
  l.filter (fun ch => including_archived || !ch.is_archived)

/-- The per-channel history stage of ingest_slack_data (src/main.py lines
188-196): for each (id, name) pair in order, download the history for
that channel from its endpoint behaviour and extend the run accumulator
when the result is non-empty. -/
def historyStage (B : String → List (Except ApiError HistoryPage)) :
    List (String × String) → List MsgRec
  | [] => []
  | c :: rest =>
    let conversations_by_ch := (download_conversations_history c.1 (B c.1)).msgs
    (if conversations_by_ch.length > 0 then conversations_by_ch else []) ++ historyStage B rest

/-- The time-window resolution of ingest_slack_data (src/main.py lines
160-171): when both latest_ut and oldest_ut are present and not None they
are used as is; when either is None the window defaults to
(start of today 00:00 Asia/Tokyo, start of yesterday 00:00 Asia/Tokyo),
the latter being exactly 86400 seconds earlier since Asia/Tokyo is a
fixed-offset zone with no daylight saving.  The Tokyo midnight timestamp
is a parameter.  Returns (latest_unix_time, oldest_unix_time). -/
def resolveWindow (latest_ut oldest_ut : Option ℚ) (startOfTodayTokyo : ℚ) : ℚ × ℚ :=
  match latest_ut, oldest_ut with
  | some l, some o => (l, o)
  | _, _ => (startOfTodayTokyo, startOfTodayTokyo - 86400)

/-- The process entry point of src/main.py (lines 227-236): latest_ut and
oldest_ut are initialised to 0; when more than two sys.argv entries exist
(two positional arguments, modelled as the pre-parsed list posArgs) the
two floats are taken from them; both values are then passed as kwargs to
ingest_slack_data, so the window resolution always receives them as
present (not None).  Returns (latest_unix_time, oldest_unix_time). -/
def mainEntryWindow (posArgs : List ℚ) (startOfTodayTokyo : ℚ) : ℚ × ℚ :=
  let latest_ut : ℚ := if 2 ≤ posArgs.length then posArgs.getD 0 0 else 0
  let oldest_ut : ℚ := if 2 ≤ posArgs.length then posArgs.getD 1 0 else 0
  resolveWindow (some latest_ut) (some oldest_ut) startOfTodayTokyo

/-- Decimal rendering of a natural number left-padded with zeros to the
given width, as strftime does for %Y, %m, %d. -/
def fmtNat (width n : ℕ) : String :=
  let s := toString n
  String.mk (List.replicate (width - s.length) (Char.ofNat 48)) ++ s

/-- strftime with format %Y-%m-%d applied to a (year, month, day)
triple. -/
def fmtDate (d : ℕ × ℕ × ℕ) : String :=
  fmtNat 4 d.1 ++ "-" ++ fmtNat 2 d.2.1 ++ "-" ++ fmtNat 2 d.2.2

/-- Path.mkdir with parents=True and exist_ok=True over a file-system
state modelled as the list of existing directories: never fails, inserts
the path when absent and leaves the state unchanged when present. -/
def mkdirParentsExistOk (fs : List String) (path : String) : Except Unit (List String) :=
  Except.ok (if path ∈ fs then fs else path :: fs)

/-- exporting_dir (src/main.py lines 120-126): datetime.fromtimestamp with
no tz argument converts the timestamp in the system local timezone (not
the fixed Asia/Tokyo zone used for the default window), modelled by the
localCivil parameter giving the local (year, month, day); the date is
rendered as %Y-%m-%d and the directory
script_dir/slack_lake/daily-ingest_target-date_<date> is created with
parents=True, exist_ok=True.  Returns the path and the new file-system
state. -/
def exporting_dir (script_dir : String) (localCivil : ℚ → ℕ × ℕ × ℕ)
    (fs : List String) (oldest_ut : ℚ) : Except Unit (String × List String) :=
  let oldest_dt_str := fmtDate (localCivil oldest_ut)
  let dir_name := "slack_lake/daily-ingest_target-date_" ++ oldest_dt_str
  let dir_path := script_dir ++ "/" ++ dir_name
  match mkdirParentsExistOk fs dir_path with
  | Except.ok fs2 => Except.ok (dir_path, fs2)
  | Except.error e => Except.error e

/-- The day-splitting while loop of gen_call_functions_sh.py main (lines
23-29), in units of days: starting from _start = oldest with
_end = _start + 1, append [start, end) and advance by one day while
_end is at most latest.  The loop runs exactly (latest - oldest) times, so
that much fuel reproduces it. -/
def splitGo (latest : ℤ) : ℤ → ℕ → List (ℤ × ℤ)
  | _, 0 => []
  | start, n + 1 =>
    if start + 1 ≤ latest then (start, start + 1) :: splitGo latest (start + 1) n
    else []

/-- The intervals list built by gen_call_functions_sh.py main for dates
oldest and latest (days since the epoch, both parsed from %Y-%m-%d so
whole days). -/
def splitIntervals (oldest latest : ℤ) : List (ℤ × ℤ) :=
  splitGo latest oldest (latest - oldest).toNat

/-- Outcome of gen_call_functions_sh.py main: either the usage error path
(message printed to stdout and sys.exit(1), reached before the output
file is opened, so no file is created) or the script file written,
carrying the intervals rendered into call_functions_batch.sh. -/
inductive GenResult where
  | usageError : String → GenResult
  | wrote : List (ℤ × ℤ) → GenResult
  deriving Repr, DecidableEq

/-- gen_call_functions_sh.py main (lines 12-43): parse the two dates,
fail with a usage error when oldest_dt is not less than latest_dt, and
otherwise split the range and write the batch script. -/
def gen_main (oldest latest : ℤ) : GenResult :=
  if oldest ≥ latest then GenResult.usageError "oldest_dt must be less than latest_dt."
  else GenResult.wrote (splitIntervals oldest latest)

/-- Characterisation of target_channel_id_name_list: the id list and the
name list are the projections of the retained channels. -/
theorem target_eq_kept (l : List Channel) (b : Bool) :
    target_channel_id_name_list l b =
      ((keptChannels l b).map Channel.id, (keptChannels l b).map Channel.name) := by
  induction l with
  | nil => rfl
  | cons ch rest ih =>
    by_cases hb : (!b && ch.is_archived) = true
    · have hk : (b || !ch.is_archived) = false := by
        cases b <;> cases h : ch.is_archived <;> simp_all
      simp [target_channel_id_name_list, keptChannels, List.filter_cons, hb, hk, ih]
    · have hk : (b || !ch.is_archived) = true := by
        cases b <;> cases h : ch.is_archived <;> simp_all
      simp [target_channel_id_name_list, keptChannels, List.filter_cons, hb, hk, ih]

/-- Claim C6: with including_archived false the Channel Filter returns
exactly the channels whose archived flag is false, with the flag true it
returns all channels, in both cases preserving input order (the result
lists are order-preserving projections of the filtered input); the empty
input yields empty outputs; the function is total so no input raises. -/
theorem channel_filter_spec (l : List Channel) :
    target_channel_id_name_list l false =
      ((l.filter (fun ch => !ch.is_archived)).map Channel.id,
       (l.filter (fun ch => !ch.is_archived)).map Channel.name)
    ∧ target_channel_id_name_list l true = (l.map Channel.id, l.map Channel.name)
    ∧ target_channel_id_name_list [] false = ([], [])
    ∧ target_channel_id_name_list [] true = ([], []) := by
  refine ⟨?_, ?_, rfl, rfl⟩
  · simpa [keptChannels] using target_eq_kept l false
  · simpa [keptChannels] using target_eq_kept l true

/-- Claim C10: the two lists returned by the Channel Filter have equal
length and the entries at every index come from the same retained channel
record of the input. -/
theorem channel_filter_aligned (l : List Channel) (b : Bool) :
    (target_channel_id_name_list l b).1.length = (target_channel_id_name_list l b).2.length
    ∧ ∀ i (h1 : i < (target_channel_id_name_list l b).1.length)
        (h2 : i < (target_channel_id_name_list l b).2.length),
        ∃ ch, ch ∈ l ∧ (b = false → ch.is_archived = false)
          ∧ (target_channel_id_name_list l b).1.get ⟨i, h1⟩ = ch.id
          ∧ (target_channel_id_name_list l b).2.get ⟨i, h2⟩ = ch.name := by
  have h := target_eq_kept l b
  constructor
  · rw [h]; simp
  · intro i h1 h2
    have hi : i < (keptChannels l b).length := by
      rw [h] at h1; simpa using h1
    refine ⟨(keptChannels l b).get ⟨i, hi⟩, ?_, ?_, ?_, ?_⟩
    · exact List.mem_of_mem_filter (List.get_mem (keptChannels l b) i hi)
    · intro hb
      have hmem := List.get_mem (keptChannels l b) i hi
      have hkeep := List.of_mem_filter hmem
      subst hb
      simpa using hkeep
    · have : (target_channel_id_name_list l b).1 = (keptChannels l b).map Channel.id := by
        rw [h]
      simp [List.get_eq_getElem, this, List.getElem_map]
    · have : (target_channel_id_name_list l b).2 = (keptChannels l b).map Channel.name := by
        rw [h]
      simp [List.get_eq_getElem, this, List.getElem_map]

/-- Witness for claim C10 at a concrete channel list. -/
theorem channel_filter_aligned_witness :
    ∃ ch, ch ∈ [Channel.mk "A" "general" false, Channel.mk "B" "old" true]
      ∧ (false = false → ch.is_archived = false)
      ∧ (target_channel_id_name_list
          [Channel.mk "A" "general" false, Channel.mk "B" "old" true] false).1.get
          ⟨0, by decide⟩ = ch.id
      ∧ (target_channel_id_name_list
          [Channel.mk "A" "general" false, Channel.mk "B" "old" true] false).2.get
          ⟨0, by decide⟩ = ch.name :=
  (channel_filter_aligned [Channel.mk "A" "general" false, Channel.mk "B" "old" true] false).2
    0 (by decide) (by decide)

/-- Claim C5: when the oldest date is not strictly before the latest date
the batch generator main reports the usage error, exits non-zero and
writes no output file (the usageError outcome is produced before the
output file would be opened, and it is distinct from every wrote
outcome). -/
theorem gen_main_inverted_range_usage_error (o l : ℤ) (h : o ≥ l) :
    gen_main o l = GenResult.usageError "oldest_dt must be less than latest_dt."
    ∧ ∀ iv, gen_main o l ≠ GenResult.wrote iv := by
  constructor
  · simp [gen_main, h]
  · intro iv
    simp [gen_main, h]

/-- Witness for claim C5 at the inverted pair (5, 3). -/
theorem gen_main_inverted_range_usage_error_witness :
    gen_main 5 3 = GenResult.usageError "oldest_dt must be less than latest_dt."
    ∧ ∀ iv, gen_main 5 3 ≠ GenResult.wrote iv :=
  gen_main_inverted_range_usage_error 5 3 (by decide)

/-- Claim C1 (code divergence): invoked with no positional arguments the
entry point leaves latest_ut and oldest_ut at 0 and passes them as
present kwargs, so the window resolves to (0, 0); the Asia/Tokyo
yesterday-to-today default of resolveWindow is reached only when a value
is None, which the entry point never passes, so the resolved window is
not the default one. -/
theorem main_no_args_window_is_zero :
    mainEntryWindow [] 1700000000 = (0, 0)
    ∧ resolveWindow none none 1700000000 = (1700000000, 1700000000 - 86400)
    ∧ mainEntryWindow [] 1700000000 ≠ (1700000000, 1700000000 - 86400) := by
  refine ⟨rfl, rfl, ?_⟩
  intro hcontra
  have h1 : (0 : ℚ) = 1700000000 := congrArg Prod.fst hcontra
  norm_num at h1

/-- Characterisation of the day-splitting loop: with fuel at most the
remaining number of days, the loop yields the one-day intervals starting
at each offset below the fuel. -/
theorem splitGo_eq (l : ℤ) (f : ℕ) : ∀ s : ℤ, (f : ℤ) ≤ l - s →
    splitGo l s f = (List.range f).map (fun i : ℕ => (s + (i : ℤ), s + (i : ℤ) + 1)) := by
  induction f with
  | zero => intro s _; rfl
  | succ n ih =>
    intro s h
    have hc : ((n : ℤ) + 1) ≤ l - s := by exact_mod_cast h
    have h1 : s + 1 ≤ l := by omega
    have h2 : (n : ℤ) ≤ l - (s + 1) := by omega
    rw [splitGo, if_pos h1, ih (s + 1) h2, List.range_succ_eq_map, List.map_cons, List.map_map]
    refine congrArg₂ List.cons (by simp) ?_
    apply List.map_congr_left
    intro a _
    simp only [Function.comp_apply, Prod.mk.injEq]
    constructor <;> push_cast <;> ring

/-- The intervals of gen_call_functions_sh.py main are exactly the one-day
intervals at each day offset of the range. -/
theorem splitIntervals_eq (o l : ℤ) (h : o ≤ l) :
    splitIntervals o l =
      (List.range (l - o).toNat).map (fun i : ℕ => (o + (i : ℤ), o + (i : ℤ) + 1)) := by
  apply splitGo_eq
  rw [Int.toNat_of_nonneg (by omega)]

/-- Claim C4: for oldest strictly before latest the Batch Range Splitter
produces latest - oldest (in days, which is the ceiling of the range over
one day since both bounds are whole dates) sub-intervals; the first
starts at oldest; each interval ends where the next starts; every
interval is one day long and ends no later than latest; a day belongs to
some interval exactly when it lies in [oldest, latest); and the intervals
are pairwise non-overlapping. -/
theorem split_intervals_cover (o l : ℤ) (h : o < l) :
    (splitIntervals o l).length = (l - o).toNat
    ∧ (∀ hh : 0 < (splitIntervals o l).length, ((splitIntervals o l).get ⟨0, hh⟩).1 = o)
    ∧ (∀ i (h1 : i < (splitIntervals o l).length) (h2 : i + 1 < (splitIntervals o l).length),
        ((splitIntervals o l).get ⟨i, h1⟩).2 = ((splitIntervals o l).get ⟨i + 1, h2⟩).1)
    ∧ (∀ p ∈ splitIntervals o l, p.2 = p.1 + 1 ∧ p.2 ≤ l)
    ∧ (∀ x : ℤ, (∃ p ∈ splitIntervals o l, p.1 ≤ x ∧ x < p.2) ↔ o ≤ x ∧ x < l)
    ∧ List.Pairwise (fun p q : ℤ × ℤ => p.2 ≤ q.1) (splitIntervals o l) := by
  have he := splitIntervals_eq o l (le_of_lt h)
  refine ⟨?_, ?_, ?_, ?_, ?_, ?_⟩
  · rw [he]; simp
  · intro hh
    rw [List.get_of_eq he ⟨0, hh⟩]
    simp [List.get_eq_getElem, List.getElem_map, List.getElem_range]
  · intro i h1 h2
    rw [List.get_of_eq he ⟨i, h1⟩, List.get_of_eq he ⟨i + 1, h2⟩]
    simp only [List.get_eq_getElem, List.getElem_map, List.getElem_range, Fin.coe_cast]
    push_cast
    ring
  · intro p hp
    rw [he] at hp
    obtain ⟨i, hi, rfl⟩ := List.mem_map.mp hp
    have hi2 : i < (l - o).toNat := List.mem_range.mp hi
    constructor
    · rfl
    · simp only []
      omega
  · intro x
    constructor
    · rintro ⟨p, hp, hx1, hx2⟩
      rw [he] at hp
      obtain ⟨i, hi, rfl⟩ := List.mem_map.mp hp
      have hi2 : i < (l - o).toNat := List.mem_range.mp hi
      simp only [] at hx1 hx2
      omega
    · rintro ⟨hx1, hx2⟩
      rw [he]
      refine ⟨(o + (x - o).toNat, o + (x - o).toNat + 1), List.mem_map.mpr
        ⟨(x - o).toNat, List.mem_range.mpr (by omega), rfl⟩, by omega, by omega⟩
  · rw [he]
    rw [List.pairwise_map]
    refine List.Pairwise.imp ?_ (List.pairwise_lt_range _)
    intro a b hab
    simp only []
    omega

/-- Witness for claim C4 at the range from day 0 to day 3. -/
theorem split_intervals_cover_witness :
    (0 : ℤ) < 3 ∧ (splitIntervals 0 3).length = ((3 : ℤ) - 0).toNat :=
  ⟨by decide, (split_intervals_cover 0 3 (by decide)).1⟩

/-- The users.list loop is the same loop as the conversations.list loop
(the source duplicates the code verbatim apart from the payload field). -/
theorem usersListGo_eq_conversationsListGo {α : Type} (cursor : Option String)
    (b : List (ListPage α)) : usersListGo cursor b = conversationsListGo cursor b := by
  induction b generalizing cursor with
  | nil => rfl
  | cons page rest ih =>
    simp only [usersListGo, conversationsListGo]
    by_cases h : page.next_cursor = ""
    · simp [h]
    · simp [h, ih]

/-- Characterisation of the listing loop on a behaviour whose front pages
all carry non-empty cursors and whose last page carries the empty
cursor. -/
theorem conversationsListGo_spec {α : Type} (lastPage : ListPage α)
    (hl : lastPage.next_cursor = "") (front : List (ListPage α)) :
    ∀ cursor : Option String, (∀ p ∈ front, p.next_cursor ≠ "") →
    conversationsListGo cursor (front ++ [lastPage]) =
      ⟨((front ++ [lastPage]).map (fun p => p.items)).flatten,
       cursor :: front.map (fun p => some p.next_cursor)⟩ := by
  induction front with
  | nil =>
    intro cursor _
    simp [conversationsListGo, hl]
  | cons q qs ih =>
    intro cursor hf
    have hq : q.next_cursor ≠ "" := hf q (by simp)
    simp only [List.cons_append, conversationsListGo, if_neg hq, List.append_eq]
    rw [ih (some q.next_cursor) (fun p hp => hf p (by simp [hp]))]
    simp

/-- Claim C7: on an endpoint behaviour of N pages whose first N-1
responses carry non-empty cursors and whose last carries the empty
cursor, both listing paginators return the ordered concatenation of all
pages of items, make exactly N calls, pass no cursor on the first call
and pass the cursor of the previous response on every later call. -/
theorem paginator_concat_and_calls {α : Type} (pages : List (ListPage α)) (h0 : pages ≠ [])
    (hfront : ∀ p ∈ pages.dropLast, p.next_cursor ≠ "")
    (hlast : (pages.getLast h0).next_cursor = "") :
    download_conversations_list pages =
      ⟨(pages.map (fun p => p.items)).flatten,
       none :: pages.dropLast.map (fun p => some p.next_cursor)⟩
    ∧ download_users_list pages =
      ⟨(pages.map (fun p => p.items)).flatten,
       none :: pages.dropLast.map (fun p => some p.next_cursor)⟩
    ∧ (download_conversations_list pages).cursors.length = pages.length
    ∧ (download_users_list pages).cursors.length = pages.length := by
  have hsplit : pages.dropLast ++ [pages.getLast h0] = pages := List.dropLast_append_getLast h0
  have hc : download_conversations_list pages =
      ⟨(pages.map (fun p => p.items)).flatten,
       none :: pages.dropLast.map (fun p => some p.next_cursor)⟩ := by
    have h2 := conversationsListGo_spec (pages.getLast h0) hlast pages.dropLast none hfront
    rw [hsplit] at h2
    exact h2
  have hu : download_users_list pages =
      ⟨(pages.map (fun p => p.items)).flatten,
       none :: pages.dropLast.map (fun p => some p.next_cursor)⟩ :=
    (usersListGo_eq_conversationsListGo none pages).trans hc
  have hlen : 0 < pages.length := List.length_pos.mpr h0
  refine ⟨hc, hu, ?_, ?_⟩
  · rw [hc]
    simp [List.length_dropLast]
    omega
  · rw [hu]
    simp [List.length_dropLast]
    omega

/-- Witness for claim C7 on a three-page behaviour. -/
theorem paginator_concat_and_calls_witness :
    download_conversations_list [(⟨[1, 2], "c1"⟩ : ListPage ℕ), ⟨[3], "c2"⟩, ⟨[4], ""⟩] =
      ⟨[1, 2, 3, 4], [none, some "c1", some "c2"]⟩
    ∧ download_users_list [(⟨[1, 2], "c1"⟩ : ListPage ℕ), ⟨[3], "c2"⟩, ⟨[4], ""⟩] =
      ⟨[1, 2, 3, 4], [none, some "c1", some "c2"]⟩ := by
  have h := paginator_concat_and_calls
    [(⟨[1, 2], "c1"⟩ : ListPage ℕ), ⟨[3], "c2"⟩, ⟨[4], ""⟩]
    (by decide) (by decide) (by decide)
  refine ⟨?_, ?_⟩
  · rw [h.1]; decide
  · rw [h.2.1]; decide

/-- The guard of the orchestrator history loop keeps the accumulated list
unchanged: extending with a non-empty list or skipping an empty one both
amount to appending the list itself. -/
theorem ite_length_pos_self (xs : List MsgRec) : (if xs.length > 0 then xs else []) = xs := by
  cases xs <;> simp

/-- Running the history loop on a behaviour made of pages that all
continue (has_more not the Python False and a non-empty cursor) followed
by a raised SlackApiError: all pages before the error are accumulated and
tagged, every page and the failing call are requested with the threaded
cursors, and exactly the error is logged. -/
theorem historyGo_prefix_error (c : String) (e : ApiError)
    (rest : List (Except ApiError HistoryPage)) (oks : List HistoryPage) :
    ∀ cursor : Option String,
    (∀ p ∈ oks, p.has_more ≠ some false ∧ p.next_cursor ≠ "") →
    historyGo c cursor (oks.map Except.ok ++ Except.error e :: rest) =
      ⟨(oks.map (fun p => p.messages.map (fun m => setField m "channel" c))).flatten,
       cursor :: oks.map (fun p => some p.next_cursor), [e]⟩ := by
  induction oks with
  | nil => intro cursor _; rfl
  | cons p ps ih =>
    intro cursor hall
    have hp := hall p (by simp)
    have hnc : (if p.has_more = some false then "" else p.next_cursor) = p.next_cursor :=
      if_neg hp.1
    simp only [List.map_cons, List.cons_append, historyGo, hnc, if_neg hp.2, List.append_eq]
    rw [ih (some p.next_cursor) (fun q hq => hall q (by simp [hq]))]
    simp

/-- Claim C2: a SlackApiError raised during any page fetch of the history
pagination makes download_conversations_history return exactly the
messages accumulated from the pages fetched before the error, log the
error, and the orchestrator history stage still processes the remaining
channels after the failing one. -/
theorem history_api_error_partial_and_run_continues
    (c nm : String) (oks : List HistoryPage) (e : ApiError)
    (rest : List (Except ApiError HistoryPage)) (moreChans : List (String × String))
    (B : String → List (Except ApiError HistoryPage))
    (hB : B c = oks.map Except.ok ++ Except.error e :: rest)
    (hoks : ∀ p ∈ oks, p.has_more ≠ some false ∧ p.next_cursor ≠ "") :
    (download_conversations_history c (B c)).msgs =
      (oks.map (fun p => p.messages.map (fun m => setField m "channel" c))).flatten
    ∧ (download_conversations_history c (B c)).logged = [e]
    ∧ historyStage B ((c, nm) :: moreChans) =
        (download_conversations_history c (B c)).msgs ++ historyStage B moreChans := by
  have hd : download_conversations_history c (B c) =
      ⟨(oks.map (fun p => p.messages.map (fun m => setField m "channel" c))).flatten,
       none :: oks.map (fun p => some p.next_cursor), [e]⟩ := by
    unfold download_conversations_history
    rw [hB]
    exact historyGo_prefix_error c e rest oks none hoks
  refine ⟨by rw [hd], by rw [hd], ?_⟩
  simp only [historyStage]
  rw [ite_length_pos_self]

/-- Witness for claim C2: the first page succeeds, the second call raises;
the channel keeps its first page tagged, the error is logged, and the next
channel is still processed by the stage. -/
theorem history_api_error_witness :
    (download_conversations_history "C1"
        ((fun _ => [Except.ok (⟨[[("text", "hi")]], some true, "cur"⟩ : HistoryPage),
                    Except.error ⟨"ratelimited"⟩]) "C1")).msgs =
      [[("text", "hi"), ("channel", "C1")]]
    ∧ (download_conversations_history "C1"
        ((fun _ => [Except.ok (⟨[[("text", "hi")]], some true, "cur"⟩ : HistoryPage),
                    Except.error ⟨"ratelimited"⟩]) "C1")).logged = [⟨"ratelimited"⟩]
    ∧ historyStage
        (fun _ => [Except.ok (⟨[[("text", "hi")]], some true, "cur"⟩ : HistoryPage),
                   Except.error ⟨"ratelimited"⟩]) [("C1", "general"), ("C2", "random")] =
        (download_conversations_history "C1"
          ((fun _ => [Except.ok (⟨[[("text", "hi")]], some true, "cur"⟩ : HistoryPage),
                      Except.error ⟨"ratelimited"⟩]) "C1")).msgs ++
        historyStage
          (fun _ => [Except.ok (⟨[[("text", "hi")]], some true, "cur"⟩ : HistoryPage),
                     Except.error ⟨"ratelimited"⟩]) [("C2", "random")] := by
  have h := history_api_error_partial_and_run_continues "C1" "general"
    [⟨[[("text", "hi")]], some true, "cur"⟩] ⟨"ratelimited"⟩ [] [("C2", "random")]
    (fun _ => [Except.ok (⟨[[("text", "hi")]], some true, "cur"⟩ : HistoryPage),
               Except.error ⟨"ratelimited"⟩])
    rfl (by decide)
  refine ⟨?_, h.2.1, h.2.2⟩
  rw [h.1]
  decide

/-- Claim C3: in the history pagination loop a page whose has_more field
is the Python value False ends the pagination right after that page no
matter what cursor the response carries, while a page whose has_more
field is not False continues the loop with the cursor taken from the
response metadata as the next call argument. -/
theorem history_has_more_controls_pagination
    (c : String) (cursor : Option String) (page : HistoryPage)
    (rest : List (Except ApiError HistoryPage)) :
    (page.has_more = some false →
      historyGo c cursor (Except.ok page :: rest) =
        ⟨page.messages.map (fun m => setField m "channel" c), [cursor], []⟩)
    ∧ (page.has_more ≠ some false → page.next_cursor ≠ "" →
      (historyGo c cursor (Except.ok page :: rest)).cursors =
          cursor :: (historyGo c (some page.next_cursor) rest).cursors
        ∧ (historyGo c cursor (Except.ok page :: rest)).msgs =
          page.messages.map (fun m => setField m "channel" c) ++
            (historyGo c (some page.next_cursor) rest).msgs) := by
  constructor
  · intro hf
    simp [historyGo, hf]
  · intro hf hnc
    have h1 : (if page.has_more = some false then "" else page.next_cursor) = page.next_cursor :=
      if_neg hf
    constructor <;> simp [historyGo, h1, if_neg hnc]

/-- Witness for claim C3: a page with has_more False and a non-empty
cursor ends the loop; a page with has_more True hands its cursor to the
next call. -/
theorem history_has_more_witness :
    historyGo "C" none [Except.ok ⟨[[("ts", "1")]], some false, "ccc"⟩] =
      ⟨[[("ts", "1"), ("channel", "C")]], [none], []⟩
    ∧ (historyGo "C" none
        [Except.ok ⟨[], some true, "c2"⟩, Except.ok ⟨[], some false, ""⟩]).cursors =
      none :: (historyGo "C" (some "c2") [Except.ok ⟨[], some false, ""⟩]).cursors := by
  constructor
  · have h := (history_has_more_controls_pagination "C" none
      ⟨[[("ts", "1")]], some false, "ccc"⟩ []).1 rfl
    rw [h]
    decide
  · exact ((history_has_more_controls_pagination "C" none ⟨[], some true, "c2"⟩
      [Except.ok ⟨[], some false, ""⟩]).2 (by decide) (by decide)).1

/-- When some entry of the dict carries the key, the entry found after the
replacement map of dict.update is the replaced pair. -/
theorem find?_map_setFields (k v : String) (m : MsgRec) :
    m.any (fun q => q.1 == k) = true →
    (m.map (fun p => if p.1 == k then (k, v) else p)).find? (fun q => q.1 == k) =
      some (k, v) := by
  induction m with
  | nil => intro h; simp at h
  | cons p t ih =>
    intro h
    by_cases hp : (p.1 == k) = true
    · rw [List.map_cons, if_pos hp, List.find?_cons_of_pos _ (by simp)]
    · have ht : t.any (fun q => q.1 == k) = true := by
        simp only [List.any_cons] at h
        rcases Bool.or_eq_true_iff.mp h with h1 | h1
        · exact absurd h1 hp
        · exact h1
      rw [List.map_cons, if_neg hp, List.find?_cons_of_neg _ (by simpa using hp), ih ht]

/-- When no entry of the dict carries the key, the entry found after
dict.update appended the pair is that appended pair. -/
theorem find?_append_absent (k v : String) (m : MsgRec) :
    m.any (fun q => q.1 == k) = false →
    (m ++ [(k, v)]).find? (fun q => q.1 == k) = some (k, v) := by
  induction m with
  | nil => intro _; simp
  | cons p t ih =>
    intro h
    simp only [List.any_cons, Bool.or_eq_false_iff] at h
    rw [List.cons_append, List.find?_cons_of_neg _ (by simp [h.1]),
      ih h.2]

/-- Looking up a key right after dict.update with that key yields the
updated value, whether or not the key was present before. -/
theorem getField_setField (m : MsgRec) (k v : String) :
    getField (setField m k v) k = some v := by
  unfold setField getField
  by_cases hany : (m.any (fun q => q.1 == k)) = true
  · rw [if_pos hany, find?_map_setFields k v m hany]
    rfl
  · rw [if_neg hany, find?_append_absent k v m (by rwa [Bool.not_eq_true] at hany)]
    rfl

/-- Every message accumulated by the history loop was tagged with the
channel id, so its channel field is that id. -/
theorem historyGo_msgs_tagged (c : String) (behavior : List (Except ApiError HistoryPage)) :
    ∀ (cursor : Option String) (m : MsgRec),
      m ∈ (historyGo c cursor behavior).msgs → getField m "channel" = some c := by
  induction behavior with
  | nil => intro cursor m hm; simp [historyGo] at hm
  | cons x rest ih =>
    intro cursor m hm
    match x with
    | Except.error e => simp [historyGo] at hm
    | Except.ok page =>
      simp only [historyGo] at hm
      by_cases hnc : (if page.has_more = some false then "" else page.next_cursor) = ""
      · rw [if_pos hnc] at hm
        simp only [List.mem_map] at hm
        obtain ⟨m0, _, rfl⟩ := hm
        exact getField_setField m0 "channel" c
      · rw [if_neg hnc] at hm
        simp only [List.mem_append, List.mem_map] at hm
        rcases hm with ⟨m0, _, rfl⟩ | hm
        · exact getField_setField m0 "channel" c
        · exact ih _ m hm

/-- Every message in the concatenated history stage output carries the id
of one of the queried channels as its channel field. -/
theorem historyStage_tagged (B : String → List (Except ApiError HistoryPage)) :
    ∀ (chans : List (String × String)) (m : MsgRec), m ∈ historyStage B chans →
      ∃ p, p ∈ chans ∧ getField m "channel" = some p.1 := by
  intro chans
  induction chans with
  | nil => intro m hm; simp [historyStage] at hm
  | cons c rest ih =>
    intro m hm
    simp only [historyStage, ite_length_pos_self, List.mem_append] at hm
    rcases hm with hm | hm
    · exact ⟨c, by simp, historyGo_msgs_tagged c.1 (B c.1) none m hm⟩
    · obtain ⟨p, hp, hf⟩ := ih m hm
      exact ⟨p, by simp [hp], hf⟩

/-- Claim C9: every message record returned by
download_conversations_history for a channel carries a channel field
equal to that channel id (the injected field overwrites any
provider-supplied value of the same name), and in the concatenated
history output every message has the channel field of the channel it was
fetched from. -/
theorem history_channel_field_injected
    (c : String) (behavior : List (Except ApiError HistoryPage))
    (B : String → List (Except ApiError HistoryPage)) (chans : List (String × String)) :
    (∀ m ∈ (download_conversations_history c behavior).msgs,
      getField m "channel" = some c)
    ∧ (∀ m ∈ historyStage B chans, ∃ p, p ∈ chans ∧ getField m "channel" = some p.1) :=
  ⟨fun m hm => historyGo_msgs_tagged c behavior none m hm,
   fun m hm => historyStage_tagged B chans m hm⟩

/-- Witness for claim C9: a provider message that already carries a
channel field has it overwritten with the id of the fetched channel. -/
theorem history_channel_field_injected_witness :
    getField [("channel", "C9"), ("ts", "1")] "channel" = some "C9" :=
  (history_channel_field_injected "C9"
      [Except.ok ⟨[[("channel", "UPSTREAM"), ("ts", "1")]], some false, ""⟩]
      (fun _ => []) []).1
    [("channel", "C9"), ("ts", "1")] (by decide)

/-- Claim C8: exporting_dir returns the directory
script_dir/slack_lake/daily-ingest_target-date_<date> where <date> is the
%Y-%m-%d rendering of the local-system calendar date of the oldest
timestamp (datetime.fromtimestamp with no tz argument, modelled by the
localCivil parameter, not the fixed Asia/Tokyo zone); calling it twice
with the same timestamp returns the same path, the second call succeeds
and leaves the file-system state unchanged. -/
theorem exporting_dir_path_and_idempotent (sd : String) (localCivil : ℚ → ℕ × ℕ × ℕ)
    (fs : List String) (ut : ℚ) :
    ∃ fs1,
      exporting_dir sd localCivil fs ut =
        Except.ok (sd ++ "/" ++ ("slack_lake/daily-ingest_target-date_" ++
          fmtDate (localCivil ut)), fs1)
      ∧ exporting_dir sd localCivil fs1 ut =
        Except.ok (sd ++ "/" ++ ("slack_lake/daily-ingest_target-date_" ++
          fmtDate (localCivil ut)), fs1) := by
  by_cases h :
      (sd ++ "/" ++ ("slack_lake/daily-ingest_target-date_" ++ fmtDate (localCivil ut))) ∈ fs
  · exact ⟨fs, by simp [exporting_dir, mkdirParentsExistOk, h], by
      simp [exporting_dir, mkdirParentsExistOk, h]⟩
  · refine ⟨(sd ++ "/" ++ ("slack_lake/daily-ingest_target-date_" ++
      fmtDate (localCivil ut))) :: fs, ?_, ?_⟩
    · simp [exporting_dir, mkdirParentsExistOk, h]
    · simp [exporting_dir, mkdirParentsExistOk]

end SlackIngest
